import Mathlib

/-
  Verification development for the smallsh interactive shell
  (src/smallsh.c, src/smallsh.h, src/UTL_smallsh.c).

  The shell's core data model and operations are shallowly embedded:
  C strings become `List Char` (NUL-terminated strings without their
  terminator; tokens produced by strtok never contain NUL), the
  cmdStruct record becomes a Lean structure, the module-level
  variables (childPids, childStatus, the sig_atomic_t flags) become
  explicit state, and the OS interactions (fork/waitpid/kill/exit,
  dup2 wiring) are modelled as action traces or explicit inputs
  (the raw wait statuses that waitpid writes).
-/

namespace Smallsh

/-- A C string as the list of its characters before the NUL terminator. -/
abbrev CStr := List Char

/-- `NulFree t` states that the modelled C string contains no embedded NUL
character, which is true of every token strtok can produce. -/
def NulFree (t : CStr) : Prop := ∀ ch ∈ t, ch ≠ Char.ofNat 0

instance (t : CStr) : Decidable (NulFree t) := by
  unfold NulFree; infer_instance

/-- C `strncmp(a, b, n)` over NUL-terminated strings modelled as char lists:
compares at most `n` characters, stops at the first difference or at the end
of either string (its NUL terminator), and returns the difference of the
first differing character codes (`0` on equality). -/
def cstrncmp : CStr → CStr → Nat → Int
  | _, _, 0 => 0
  | [], [], _ + 1 => 0
  | [], b :: _, _ + 1 => -(b.toNat : Int)
  | a :: _, [], _ + 1 => (a.toNat : Int)
  | a :: as, b :: bs, n + 1 =>
    if a = b then cstrncmp as bs n else (a.toNat : Int) - (b.toNat : Int)

/- Constants from src/smallsh.h. -/

/-- MAX_ARGS from smallsh.h. -/
def MAX_ARGS : Nat := 512

/-- MAX_CHILDREN from smallsh.h. -/
def MAX_CHILDREN : Nat := 10

/-- INPUT ("<") from smallsh.h. -/
def INPUT : CStr := ['<']

/-- OUTPUT (">") from smallsh.h. -/
def OUTPUT : CStr := ['>']

/-- BACKGROUND ("&") from smallsh.h. -/
def BACKGROUND : CStr := ['&']

/-- COMMENT ("#") from smallsh.h. -/
def COMMENT : CStr := ['#']

/-- COMMENT_LEN from smallsh.h. -/
def COMMENT_LEN : Nat := 1

/-- CD_CMD ("cd") from smallsh.h. -/
def CD_CMD : CStr := ['c', 'd']

/-- CD_LEN from smallsh.h (strlen("cd") + 1). -/
def CD_LEN : Nat := 3

/-- EXIT_CMD ("exit") from smallsh.h. -/
def EXIT_CMD : CStr := ['e', 'x', 'i', 't']

/-- EXIT_LEN from smallsh.h (strlen("exit") + 1). -/
def EXIT_LEN : Nat := 5

/-- STATUS_CMD ("status") from smallsh.h. -/
def STATUS_CMD : CStr := ['s', 't', 'a', 't', 'u', 's']

/-- STATUS_LEN from smallsh.h (strlen("status") + 1). -/
def STATUS_LEN : Nat := 7

/-- EXIT_SUCCESS as used by smallsh.c. -/
def EXIT_SUCCESS : Nat := 0

/-- ExpandPID (smallsh.c lines 240-315): scans the argument once; whenever
`arg[i] == '$' ∧ arg[i+1] == '$'` it appends the pid string and skips both
characters, otherwise it copies the current character.  At the final
character the C code reads `arg[i+1]`, the NUL terminator, which never
equals `'$'`, so a trailing lone `'$'` is copied; this is the `[c]` case. -/
def ExpandPID (pidStr : CStr) : CStr → CStr
  | [] => []
  | [c] => [c]
  | c :: d :: rest =>
    if c = '$' ∧ d = '$' then pidStr ++ ExpandPID pidStr rest
    else c :: ExpandPID pidStr (d :: rest)

/-- `HasPID s = true` iff the two-character placeholder `$$` occurs somewhere
in `s` (the condition ExpandPID tests while scanning). -/
def HasPID : CStr → Bool
  | [] => false
  | [_] => false
  | c :: d :: rest => if c = '$' ∧ d = '$' then true else HasPID (d :: rest)

/-- cmdStruct from smallsh.h: the parsed command record.  The C struct's
fixed array `args[MAX_ARGS]` is modelled by the list of its non-NULL
prefix; `input`/`output` are NULL-initialised pointers, hence `Option`. -/
structure cmdStruct where
  args : List CStr
  input : Option CStr
  output : Option CStr
  isRedirectInput : Bool
  isRedirectOutput : Bool
  isBackground : Bool
deriving DecidableEq

/-- The all-zero cmdStruct produced by `memset(&newCmd, 0, ...)` in main. -/
def emptyCmd : cmdStruct :=
  { args := [], input := none, output := none,
    isRedirectInput := false, isRedirectOutput := false, isBackground := false }

/-- The token-classification loop of ParseCommand (smallsh.c lines 792-853):
iterates at most MAX_ARGS times (the fuel), consuming one token per
iteration.  A token seen while `inputFlag` is pending becomes the input
path; likewise for `outputFlag`; a token equal to `<` (under strncmp with
n = 2) sets the input-redirection flag; one equal to `>` sets the
output-redirection flag; every other token is appended to `args`.
Tokens are the post-ExpandPID strings (`lp_tempArg` in the source). -/
def ParseLoop : Nat → List CStr → Bool → Bool → cmdStruct → cmdStruct
  | 0, _, _, _, c => c
  | _ + 1, [], _, _, c => c
  | n + 1, t :: ts, inputFlag, outputFlag, c =>
    if inputFlag then
      ParseLoop n ts false outputFlag { c with input := some t }
    else if outputFlag then
      ParseLoop n ts inputFlag false { c with output := some t }
    else if cstrncmp t INPUT 2 = 0 then
      ParseLoop n ts true outputFlag { c with isRedirectInput := true }
    else if cstrncmp t OUTPUT 2 = 0 then
      ParseLoop n ts inputFlag true { c with isRedirectOutput := true }
    else
      ParseLoop n ts inputFlag outputFlag { c with args := c.args ++ [t] }

/-- The background postlude of ParseCommand (smallsh.c lines 855-873): if the
last stored argument compares equal to `&` under `strncmp(..., BACKGROUND, 2)`,
it is removed from `args`, and `isBackground` is set to TRUE exactly when
`ignoreBackground == FALSE` (else explicitly set to FALSE). -/
def ApplyBackground (c : cmdStruct) (ignoreBackground : Bool) : cmdStruct :=
  match c.args.getLast? with
  | none => c
  | some t =>
    if cstrncmp t BACKGROUND 2 = 0 then
      { c with args := c.args.dropLast,
               isBackground := if ignoreBackground = false then true else false }
    else c

/-- ParseCommand (smallsh.c lines 765-877) on the expanded token stream:
the classification loop starting from the zeroed record with both lookahead
flags clear, followed by the background postlude.  `tokens` are the
post-ExpandPID tokens (strtok of the input line on " \n", each expanded). -/
def ParseCommand (tokens : List CStr) (ignoreBackground : Bool) : cmdStruct :=
  ApplyBackground (ParseLoop MAX_ARGS tokens false false emptyCmd) ignoreBackground

/-- The full per-line front end: each raw strtok token is first passed
through ExpandPID (smallsh.c line 807) and the expanded stream is parsed. -/
def ParseLine (pidStr : CStr) (rawTokens : List CStr) (ignoreBackground : Bool) : cmdStruct :=
  ParseCommand (rawTokens.map (ExpandPID pidStr)) ignoreBackground

/-- Where one of the child's standard streams ends up after the dup2 calls
in the child branch of ExternalCommand: left as inherited from the shell's
terminal, wired to an opened path (the record's possibly-NULL
`input`/`output` pointer), or wired to DEV_NULL. -/
inductive StreamSrc
  | inherit
  | file (path : Option CStr)
  | devNull
deriving DecidableEq

/-- Standard-output wiring performed by the child branch of ExternalCommand
(smallsh.c lines 372-409): an explicit output redirection always wins; a
background command without one gets DEV_NULL; a foreground command without
one inherits the terminal. -/
def ChildStdout (c : cmdStruct) : StreamSrc :=
  if c.isRedirectOutput = true then StreamSrc.file c.output
  else if c.isBackground = true then StreamSrc.devNull
  else StreamSrc.inherit

/-- Standard-input wiring performed by the child branch of ExternalCommand
(smallsh.c lines 379-409), symmetric to `ChildStdout`. -/
def ChildStdin (c : cmdStruct) : StreamSrc :=
  if c.isRedirectInput = true then StreamSrc.file c.input
  else if c.isBackground = true then StreamSrc.devNull
  else StreamSrc.inherit

/- Linux/glibc wait-status macros over the raw int written by waitpid,
modelled on Nat (raw statuses are non-negative). -/

/-- glibc WTERMSIG: the low seven bits of the raw status. -/
def WTERMSIG (s : Nat) : Nat := s % 128

/-- glibc WIFEXITED as the int-valued expression the C code assigns from:
`1` when the low seven bits are zero (normal exit), else `0`. -/
def WIFEXITED (s : Nat) : Nat := if s % 128 = 0 then 1 else 0

/-- glibc WIFSIGNALED: the low seven bits are neither 0 (exited) nor
0x7f (stopped). -/
def WIFSIGNALED (s : Nat) : Bool := s % 128 != 0 && s % 128 != 127

/-- glibc WEXITSTATUS: bits 8-15 of the raw status. -/
def WEXITSTATUS (s : Nat) : Nat := s / 256 % 256

/-- The raw wait status waitpid reports for a child that exited normally
with exit code `c` (code in bits 8-15, low seven bits zero). -/
def encodeExit (c : Nat) : Nat := c % 256 * 256

/-- The raw wait status waitpid reports for a child terminated by signal
`n` (1 ≤ n ≤ 126, no core-dump flag): the signal number itself. -/
def encodeSignaled (n : Nat) : Nat := n % 128

/-- The new value of the global `childStatus` after the foreground wait in
the parent branch of ExternalCommand (smallsh.c lines 446-460): waitpid
writes the raw status; if the child was signaled the raw value is kept
(only a message is printed); otherwise, if the raw value is non-zero, the
code assigns `childStatus = WIFEXITED(childStatus)`; a zero raw value is
kept as zero. -/
def CaptureForegroundStatus (raw : Nat) : Nat :=
  if WIFSIGNALED raw then raw
  else if raw ≠ 0 then WIFEXITED raw
  else raw

/-- The message the foreground wait prints immediately (smallsh.c lines
452-455): only the signal message, and only for a signaled child. -/
def ForegroundReport (raw : Nat) : Option String :=
  if WIFSIGNALED raw then some s!"terminated by signal {WTERMSIG raw}" else none

/-- MyStatus (smallsh.c lines 737-744): prints `exit status %d` with the
current value of the global `childStatus` and changes nothing. -/
def MyStatus (childStatus : Nat) : String := s!"exit status {childStatus}"

/-- The module state of smallsh.c that the job-table and status logic
touches: the childPids array (MAX_CHILDREN slots, 0 = empty) and the
global childStatus. -/
structure ShellState where
  childPids : List Nat
  childStatus : Nat
deriving DecidableEq

/-- AddChildPid (smallsh.c lines 202-222): stores the pid into the first
zero slot; if no slot is free the array is unchanged. -/
def AddChildPid : List Nat → Nat → List Nat
  | [], _ => []
  | p :: ps, pid => if p = 0 then pid :: ps else p :: AddChildPid ps pid

/-- RemoveChildPid (smallsh.c lines 949-968): clears the first slot equal
to the pid; clearing an absent pid is a no-op. -/
def RemoveChildPid : List Nat → Nat → List Nat
  | [], _ => []
  | p :: ps, pid => if p = pid then 0 :: ps else p :: RemoveChildPid ps pid

/-- One per-zombie report printed by ReapZombies. -/
inductive ReapMsg
  | signaled (pid sig : Nat)
  | exited (pid status : Nat)
deriving DecidableEq

/-- ReapZombies (smallsh.c lines 892-932).  Each successful
`waitpid(-1, &childStatus, WNOHANG)` is an environment event `(pid, raw)`;
the call writes `raw` into the global `childStatus`, a done message is
printed (signal-based or `exit value %d` with the raw status), and the pid
is removed from the childPids array.  The loop ends when waitpid finds no
more terminated children. -/
def ReapZombies (s : ShellState) : List (Nat × Nat) → ShellState × List ReapMsg
  | [] => (s, [])
  | (pid, raw) :: rest =>
    let s1 : ShellState :=
      { childPids := RemoveChildPid s.childPids pid, childStatus := raw }
    let msg :=
      if WIFSIGNALED raw then ReapMsg.signaled pid (WTERMSIG raw)
      else ReapMsg.exited pid raw
    let res := ReapZombies s1 rest
    (res.1, msg :: res.2)

/-- The externally visible actions MyExit performs, in order. -/
inductive ExitAction
  | term (pid : Nat)
  | wait (pid : Nat)
  | report (pid : Nat)
  | exitShell (code : Nat)
deriving DecidableEq

/-- The termination loop of MyExit (smallsh.c lines 710-719): for each
slot of the childPids array in order, if it is non-zero, send SIGTERM to
that pid and then block in waitpid for it. -/
def MyExitLoop : List Nat → List ExitAction
  | [] => []
  | p :: ps =>
    if p ≠ 0 then ExitAction.term p :: ExitAction.wait p :: MyExitLoop ps
    else MyExitLoop ps

/-- MyExit (smallsh.c lines 701-723): after freeing the record's args, run
the termination loop over the childPids array, then `exit(EXIT_SUCCESS)`.
Nothing is printed. -/
def MyExit (pids : List Nat) : List ExitAction :=
  MyExitLoop pids ++ [ExitAction.exitShell EXIT_SUCCESS]

/-- The sig_atomic_t flags HandleSIGTSTP reads and writes
(smallsh.c lines 124-128). -/
structure SigState where
  ignoreBackground : Bool
  foregroundChild : Bool
  backgroundIgnoreSet : Bool
  backgroundUnignoreSet : Bool
deriving DecidableEq

/-- The notice HandleSIGTSTP writes immediately when no foreground child
is being waited on. -/
inductive TstpMsg
  | enteringForegroundOnly
  | exitingForegroundOnly
deriving DecidableEq

/-- HandleSIGTSTP (smallsh.c lines 600-649): toggles `ignoreBackground`;
if a foreground child is being waited on, the user notice is deferred by
setting the matching flag, otherwise it is written immediately. -/
def HandleSIGTSTP (s : SigState) : SigState × Option TstpMsg :=
  if s.ignoreBackground = false then
    if s.foregroundChild = true then
      ({ s with ignoreBackground := true, backgroundIgnoreSet := true }, none)
    else
      ({ s with ignoreBackground := true }, some TstpMsg.enteringForegroundOnly)
  else
    if s.foregroundChild = true then
      ({ s with ignoreBackground := false, backgroundUnignoreSet := true }, none)
    else
      ({ s with ignoreBackground := false }, some TstpMsg.exitingForegroundOnly)

/-- The state transition of one SIGTSTP delivery. -/
def TstpToggle (s : SigState) : SigState := (HandleSIGTSTP s).1

/-- How RunCommand classifies the first argument. -/
inductive CmdKind
  | blank
  | comment
  | cd
  | exitCmd
  | statusCmd
  | external
deriving DecidableEq

/-- The dispatch chain of RunCommand (smallsh.c lines 993-1027): a NULL
first argument is a blank line; otherwise the first argument is compared
with strncmp against `#` (n = COMMENT_LEN = 1), `cd` (n = CD_LEN = 3),
`exit` (n = EXIT_LEN = 5) and `status` (n = STATUS_LEN = 7), in that
order; anything else is run as an external command. -/
def RunCommandDispatch : Option CStr → CmdKind
  | none => CmdKind.blank
  | some a =>
    if cstrncmp a COMMENT COMMENT_LEN = 0 then CmdKind.comment
    else if cstrncmp a CD_CMD CD_LEN = 0 then CmdKind.cd
    else if cstrncmp a EXIT_CMD EXIT_LEN = 0 then CmdKind.exitCmd
    else if cstrncmp a STATUS_CMD STATUS_LEN = 0 then CmdKind.statusCmd
    else CmdKind.external

/- Helper lemmas. -/

lemma char_toNat_inj {c d : Char} (h : c.toNat = d.toNat) : c = d := by
  rw [← Char.ofNat_toNat c, h, Char.ofNat_toNat]

lemma char_sub_ne_zero {c d : Char} (h : c ≠ d) :
    (c.toNat : Int) - (d.toNat : Int) ≠ 0 := by
  intro h0
  have : (c.toNat : Int) = (d.toNat : Int) := sub_eq_zero.mp h0
  exact h (char_toNat_inj (by exact_mod_cast this))

lemma nulFree_tail {c : Char} {as : CStr} (h : NulFree (c :: as)) : NulFree as :=
  fun t ht => h t (List.mem_cons_of_mem _ ht)

lemma ExpandPID_no_occ (p : CStr) : ∀ s, HasPID s = false → ExpandPID p s = s := by
  intro s
  induction s using HasPID.induct with
  | case1 => intro _; rfl
  | case2 c => intro _; rfl
  | case3 c d rest h => intro hfalse; simp [HasPID, h] at hfalse
  | case4 c d rest h ih =>
    intro hfalse
    have h1 : HasPID (d :: rest) = false := by simpa [HasPID, h] using hfalse
    simp only [ExpandPID, if_neg h]
    rw [ih h1]

lemma ExpandPID_leftmost (p b : CStr) : ∀ a, HasPID (a ++ ['$']) = false →
    ExpandPID p (a ++ '$' :: '$' :: b) = a ++ p ++ ExpandPID p b := by
  intro a
  induction a using HasPID.induct with
  | case1 =>
    intro _
    simp [ExpandPID]
  | case2 c =>
    intro hc
    have hcne : c ≠ '$' := by
      intro hc'
      simp [HasPID, hc'] at hc
    simp [ExpandPID, hcne]
  | case3 c d rest h =>
    intro hc
    simp [HasPID, h] at hc
  | case4 c d rest h ih =>
    intro hc
    have h1 : HasPID ((d :: rest) ++ ['$']) = false := by
      simpa [HasPID, h] using hc
    have hstep : ExpandPID p ((c :: d :: rest) ++ '$' :: '$' :: b) =
        c :: ExpandPID p ((d :: rest) ++ '$' :: '$' :: b) := by
      simp only [List.cons_append, ExpandPID, if_neg h]
      rfl
    rw [hstep, ih h1]
    simp

/-- C1: for every token, ExpandPID leaves a token without any `$$`
occurrence unchanged, rewrites the leftmost `$$` occurrence (any prefix `a`
that neither contains `$$` nor ends in `$`) to the pid string and recurses
on the remainder, and handles adjacent occurrences, `a$$$$b` expanding to
`a` ++ pid ++ pid ++ `b`. -/
theorem ExpandPID_replaces_each_occurrence (p s a b : CStr)
    (hs : HasPID s = false) (ha : HasPID (a ++ ['$']) = false) :
    ExpandPID p s = s ∧
    ExpandPID p (a ++ '$' :: '$' :: b) = a ++ p ++ ExpandPID p b ∧
    ExpandPID p ['a', '$', '$', '$', '$', 'b'] = 'a' :: (p ++ p ++ ['b']) := by
  refine ⟨ExpandPID_no_occ p s hs, ExpandPID_leftmost p b a ha, ?_⟩
  simp [ExpandPID]

/-- Witness for C1 at `p = "42"`, `s = "ab"`, `a = "a"`, `b = "b"`. -/
theorem ExpandPID_replaces_each_occurrence_witness :
    ExpandPID ['4', '2'] ['a', 'b'] = ['a', 'b'] ∧
    ExpandPID ['4', '2'] (['a'] ++ '$' :: '$' :: ['b']) =
      ['a'] ++ ['4', '2'] ++ ExpandPID ['4', '2'] ['b'] ∧
    ExpandPID ['4', '2'] ['a', '$', '$', '$', '$', 'b'] =
      'a' :: (['4', '2'] ++ ['4', '2'] ++ ['b']) :=
  ExpandPID_replaces_each_occurrence ['4', '2'] ['a', 'b'] ['a'] ['b']
    (by decide) (by decide)

/-- C2 (documents the code bug): for a foreground child that exits normally
with code 2 (raw wait status 512) the capture logic stores
`WIFEXITED(raw) = 1` instead of the exit code 2 (its own WEXITSTATUS), so a
subsequent `status` prints `exit status 1`; and after a death by signal 11
the stored value is the raw status 11, which a subsequent `status` prints as
`exit status 11`, not as the signal-based message (that message is printed
only once, at wait time). -/
theorem CaptureForegroundStatus_drops_exit_code :
    WEXITSTATUS (encodeExit 2) = 2 ∧
    CaptureForegroundStatus (encodeExit 2) = 1 ∧
    MyStatus (CaptureForegroundStatus (encodeExit 2)) = "exit status 1" ∧
    CaptureForegroundStatus (encodeSignaled 11) = 11 ∧
    MyStatus (CaptureForegroundStatus (encodeSignaled 11)) = "exit status 11" ∧
    ForegroundReport (encodeSignaled 11) = some "terminated by signal 11" := by
  refine ⟨by decide, by decide, by decide, by decide, by decide, by decide⟩

/-- C4 counterexample: with the stored foreground status 0 and a
background child pid 7 that exited with code 1 (raw status 256), the
ReaperLoop overwrites the global childStatus with 256, so a subsequent
`status` built-in no longer reports what it reported before the reap. -/
theorem ReapZombies_status_cex :
    (ReapZombies { childPids := [7, 0, 0, 0, 0, 0, 0, 0, 0, 0], childStatus := 0 }
        [(7, 256)]).1.childStatus = 256 ∧
    MyStatus ((ReapZombies { childPids := [7, 0, 0, 0, 0, 0, 0, 0, 0, 0], childStatus := 0 }
        [(7, 256)]).1.childStatus) ≠ MyStatus 0 := by
  refine ⟨by decide, by decide⟩

/-- C4 amended: reaping terminated background children does NOT leave the
stored status unchanged: each `waitpid(-1, &childStatus, WNOHANG)` writes
into the same global the `status` built-in reports, so after ReapZombies
processes a batch of terminations the stored status is the raw wait status
of the last child reaped (only an empty batch leaves it unchanged). -/
theorem ReapZombies_overwrites_status (s : ShellState) (zs : List (Nat × Nat)) :
    ((ReapZombies s zs).1).childStatus = (zs.map Prod.snd).getLastD s.childStatus ∧
    MyStatus ((ReapZombies s zs).1).childStatus =
      MyStatus ((zs.map Prod.snd).getLastD s.childStatus) := by
  suffices h : ((ReapZombies s zs).1).childStatus = (zs.map Prod.snd).getLastD s.childStatus by
    exact ⟨h, congrArg MyStatus h⟩
  induction zs generalizing s with
  | nil => rfl
  | cons hd rest ih =>
    obtain ⟨pid, raw⟩ := hd
    simp only [ReapZombies, List.map_cons, List.getLastD_cons]
    exact ih { childPids := RemoveChildPid s.childPids pid, childStatus := raw }

/-- C5: MyExit sends SIGTERM to every pid registered in the childPids
array (every non-zero slot) and performs a blocking wait for each; the
`exit(EXIT_SUCCESS)` action comes only after all of these, with success
status 0; and the trace contains no background-done report. -/
theorem MyExit_terminates_all_children (pids : List Nat) :
    (∀ p, p ∈ pids → p ≠ 0 →
      ExitAction.term p ∈ MyExitLoop pids ∧ ExitAction.wait p ∈ MyExitLoop pids) ∧
    MyExit pids = MyExitLoop pids ++ [ExitAction.exitShell EXIT_SUCCESS] ∧
    EXIT_SUCCESS = 0 ∧
    (∀ q, ExitAction.exitShell q ∉ MyExitLoop pids) ∧
    (∀ q, ExitAction.report q ∉ MyExit pids) := by
  refine ⟨?_, rfl, rfl, ?_, ?_⟩
  · induction pids with
    | nil => intro p hp _; cases hp
    | cons a ps ih =>
      intro p hp hp0
      rcases List.mem_cons.mp hp with h | h
      · subst h
        simp [MyExitLoop, hp0]
      · have hmem := ih p h hp0
        by_cases ha : a = 0 <;> simp [MyExitLoop, ha, hmem.1, hmem.2]
  · intro q
    induction pids with
    | nil => simp [MyExitLoop]
    | cons a ps ih => by_cases ha : a = 0 <;> simp [MyExitLoop, ha, ih]
  · intro q
    have hloop : ∀ l : List Nat, ExitAction.report q ∉ MyExitLoop l := by
      intro l
      induction l with
      | nil => simp [MyExitLoop]
      | cons a ps ih => by_cases ha : a = 0 <;> simp [MyExitLoop, ha, ih]
    simp [MyExit, hloop pids]

/-- Witness for C5 at the job table `[5, 0, 3]`. -/
theorem MyExit_terminates_all_children_witness :
    ExitAction.term 5 ∈ MyExitLoop [5, 0, 3] ∧ ExitAction.wait 3 ∈ MyExitLoop [5, 0, 3] :=
  ⟨((MyExit_terminates_all_children [5, 0, 3]).1 5 (by decide) (by decide)).1,
   ((MyExit_terminates_all_children [5, 0, 3]).1 3 (by decide) (by decide)).2⟩

/-- C6: in the child branch of ExternalCommand, for every background
command each explicitly redirected direction is wired to the given path and
each non-redirected direction is wired to the null device; in particular a
background command with no explicit redirection has both standard input and
standard output on the null device. -/
theorem ExternalCommand_background_null_device (c : cmdStruct)
    (hb : c.isBackground = true) :
    (c.isRedirectOutput = true → ChildStdout c = StreamSrc.file c.output) ∧
    (c.isRedirectOutput = false → ChildStdout c = StreamSrc.devNull) ∧
    (c.isRedirectInput = true → ChildStdin c = StreamSrc.file c.input) ∧
    (c.isRedirectInput = false → ChildStdin c = StreamSrc.devNull) := by
  unfold ChildStdout ChildStdin
  refine ⟨?_, ?_, ?_, ?_⟩ <;> intro h <;> simp [h, hb]

/-- Witness for C6: a background `ls` with no redirection gets both
streams wired to the null device. -/
theorem ExternalCommand_background_null_device_witness :
    ChildStdin { args := [['l', 's']], input := none, output := none,
                 isRedirectInput := false, isRedirectOutput := false,
                 isBackground := true } = StreamSrc.devNull ∧
    ChildStdout { args := [['l', 's']], input := none, output := none,
                  isRedirectInput := false, isRedirectOutput := false,
                  isBackground := true } = StreamSrc.devNull :=
  ⟨(ExternalCommand_background_null_device _ rfl).2.2.2 rfl,
   (ExternalCommand_background_null_device _ rfl).2.1 rfl⟩

lemma TstpToggle_ignoreBackground (s : SigState) :
    (TstpToggle s).ignoreBackground = !s.ignoreBackground := by
  rcases s with ⟨ib, fc, bis, bus⟩
  cases ib <;> cases fc <;> rfl

lemma TstpToggle_even_ignoreBackground : ∀ (n : Nat) (s : SigState),
    (TstpToggle^[2 * n] s).ignoreBackground = s.ignoreBackground := by
  intro n
  induction n with
  | zero => intro s; rfl
  | succ n ih =>
    intro s
    have h2 : 2 * (n + 1) = 2 * n + 2 := by ring
    rw [h2, Function.iterate_add_apply, ih]
    show (TstpToggle (TstpToggle s)).ignoreBackground = s.ignoreBackground
    rw [TstpToggle_ignoreBackground, TstpToggle_ignoreBackground, Bool.not_not]

/-- C7: the stop-signal handler's toggle of foreground-only mode is an
involution: two deliveries restore `ignoreBackground`, and after any even
number of deliveries ParseCommand classifies every token stream (in
particular every line ending in `&`) exactly as before any delivery. -/
theorem HandleSIGTSTP_involution (s : SigState) (n : Nat) (tokens : List CStr) :
    (TstpToggle (TstpToggle s)).ignoreBackground = s.ignoreBackground ∧
    (TstpToggle^[2 * n] s).ignoreBackground = s.ignoreBackground ∧
    ParseCommand tokens ((TstpToggle^[2 * n] s).ignoreBackground) =
      ParseCommand tokens s.ignoreBackground := by
  refine ⟨?_, TstpToggle_even_ignoreBackground n s, ?_⟩
  · rw [TstpToggle_ignoreBackground, TstpToggle_ignoreBackground, Bool.not_not]
  · rw [TstpToggle_even_ignoreBackground n s]

/- ParseLoop invariants. -/

lemma ParseLoop_nil : ∀ (n : Nat) (f g : Bool) (c : cmdStruct),
    ParseLoop n [] f g c = c := by
  intro n f g c
  cases n <;> rfl

lemma ParseLoop_isBackground : ∀ (n : Nat) (ts : List CStr) (f g : Bool) (c : cmdStruct),
    (ParseLoop n ts f g c).isBackground = c.isBackground := by
  intro n
  induction n with
  | zero => intro ts f g c; rfl
  | succ n ih =>
    intro ts f g c
    cases ts with
    | nil => rfl
    | cons t ts =>
      simp only [ParseLoop]
      split_ifs <;> rw [ih]

lemma ParseLoop_take : ∀ (n : Nat) (ts : List CStr) (f g : Bool) (c : cmdStruct),
    ParseLoop n ts f g c = ParseLoop n (ts.take n) f g c := by
  intro n
  induction n with
  | zero => intro ts f g c; rfl
  | succ n ih =>
    intro ts f g c
    cases ts with
    | nil => rfl
    | cons t ts =>
      simp only [List.take_succ_cons, ParseLoop]
      split_ifs <;> rw [ih]

lemma ParseLoop_args_length : ∀ (n : Nat) (ts : List CStr) (f g : Bool) (c : cmdStruct),
    (ParseLoop n ts f g c).args.length ≤ c.args.length + n := by
  intro n
  induction n with
  | zero => intro ts f g c; exact Nat.le_refl _
  | succ n ih =>
    intro ts f g c
    cases ts with
    | nil => exact Nat.le_add_right _ _
    | cons t ts =>
      simp only [ParseLoop]
      split_ifs <;>
        refine Nat.le_trans (ih ts _ _ _) ?_ <;>
        simp +arith [List.length_append]

lemma ApplyBackground_fields (c : cmdStruct) (ig : Bool) :
    (ApplyBackground c ig).input = c.input ∧
    (ApplyBackground c ig).output = c.output ∧
    (ApplyBackground c ig).isRedirectInput = c.isRedirectInput ∧
    (ApplyBackground c ig).isRedirectOutput = c.isRedirectOutput := by
  unfold ApplyBackground
  cases c.args.getLast? with
  | none => exact ⟨rfl, rfl, rfl, rfl⟩
  | some t =>
    by_cases h : cstrncmp t BACKGROUND 2 = 0 <;> simp [h]

lemma ApplyBackground_args_length (c : cmdStruct) (ig : Bool) :
    (ApplyBackground c ig).args.length ≤ c.args.length := by
  unfold ApplyBackground
  cases c.args.getLast? with
  | none => exact Nat.le_refl _
  | some t =>
    by_cases h : cstrncmp t BACKGROUND 2 = 0 <;> simp [h, List.length_dropLast]

/-- C8: the parser consumes at most MAX_ARGS = 512 tokens: the parsed
record is a function of the first MAX_ARGS tokens only (tokens beyond that
bound are silently discarded, both for pre-expanded token streams and for
the full per-line front end), at most MAX_ARGS arguments are stored, and no
error is surfaced (parsing is total, always yielding a record). -/
theorem ParseCommand_truncates_silently (tokens : List CStr) (ig : Bool) (p : CStr) :
    ParseCommand tokens ig = ParseCommand (tokens.take MAX_ARGS) ig ∧
    ParseLine p tokens ig = ParseLine p (tokens.take MAX_ARGS) ig ∧
    (ParseCommand tokens ig).args.length ≤ MAX_ARGS := by
  refine ⟨?_, ?_, ?_⟩
  · unfold ParseCommand
    rw [ParseLoop_take MAX_ARGS tokens]
  · unfold ParseLine ParseCommand
    rw [ParseLoop_take MAX_ARGS (tokens.map (ExpandPID p)), List.map_take]
  · unfold ParseCommand
    calc (ApplyBackground (ParseLoop MAX_ARGS tokens false false emptyCmd) ig).args.length
        ≤ (ParseLoop MAX_ARGS tokens false false emptyCmd).args.length :=
          ApplyBackground_args_length _ ig
      _ ≤ emptyCmd.args.length + MAX_ARGS := ParseLoop_args_length MAX_ARGS tokens false false emptyCmd
      _ = MAX_ARGS := by simp [emptyCmd]

/-- C3 counterexample: the line `cat & < file` (pid string "42";
no token contains `$$`, so expansion is the identity on each) has final raw
token `file`, not `&`, yet parses with `background = true` even though
foreground-only mode is off: the code tests the last *stored argument*
(`args[argCount-1]`, here the `&` kept before the redirection operator),
not the last raw token of the line. -/
theorem ParseCommand_background_final_token_cex :
    (ParseLine ['4', '2']
        [['c', 'a', 't'], ['&'], ['<'], ['f', 'i', 'l', 'e']] false).isBackground = true ∧
    [['c', 'a', 't'], ['&'], ['<'], ['f', 'i', 'l', 'e']].getLast? =
      some ['f', 'i', 'l', 'e'] ∧
    (['f', 'i', 'l', 'e'] : CStr) ≠ BACKGROUND := by
  refine ⟨by decide, by decide, by decide⟩

/-- C3 amended: `background = true` exactly when foreground-only mode was
not active at parse time AND the final *stored argument* after the
classification loop (the last token not consumed as a redirection operator
or as a redirection path) compares equal to `&` under the code's
`strncmp(..., BACKGROUND, 2)`; the final raw token of the line itself is
not what is tested. -/
theorem ParseCommand_background_iff (tokens : List CStr) (ig : Bool) :
    (ParseCommand tokens ig).isBackground = true ↔
      ig = false ∧
      ∃ t, (ParseLoop MAX_ARGS tokens false false emptyCmd).args.getLast? = some t ∧
        cstrncmp t BACKGROUND 2 = 0 := by
  unfold ParseCommand ApplyBackground
  have hb : (ParseLoop MAX_ARGS tokens false false emptyCmd).isBackground = false :=
    ParseLoop_isBackground MAX_ARGS tokens false false emptyCmd
  cases hl : (ParseLoop MAX_ARGS tokens false false emptyCmd).args.getLast? with
  | none => simp [hl, hb]
  | some t =>
    by_cases hcmp : cstrncmp t BACKGROUND 2 = 0
    · cases ig <;> simp [hl, hcmp]
    · simp [hl, hcmp, hb]

lemma ParseLoop_plain_append :
    ∀ (ts : List CStr),
      (∀ t ∈ ts, cstrncmp t INPUT 2 ≠ 0 ∧ cstrncmp t OUTPUT 2 ≠ 0) →
      ∀ (rest : List CStr) (n : Nat) (c : cmdStruct), ts.length ≤ n →
        ParseLoop n (ts ++ rest) false false c =
          ParseLoop (n - ts.length) rest false false { c with args := c.args ++ ts } := by
  intro ts
  induction ts with
  | nil =>
    intro _ rest n c _
    simp
  | cons t ts ih =>
    intro hplain rest n c hn
    cases n with
    | zero => exact absurd hn (by simp)
    | succ n =>
      have ht := hplain t (List.mem_cons_self t ts)
      have hts : ∀ u ∈ ts, cstrncmp u INPUT 2 ≠ 0 ∧ cstrncmp u OUTPUT 2 ≠ 0 :=
        fun u hu => hplain u (List.mem_cons_of_mem t hu)
      have hn' : ts.length ≤ n := by simpa using hn
      simp only [List.cons_append, List.append_eq, ParseLoop, Bool.false_eq_true, if_false,
        if_neg ht.1, if_neg ht.2]
      rw [ih hts rest n { c with args := c.args ++ [t] } hn']
      simp [List.append_assoc]

lemma ParseLoop_input_op (k : Nat) (c : cmdStruct) :
    ParseLoop (k + 1) [INPUT] false false c = { c with isRedirectInput := true } := by
  simp [ParseLoop, ParseLoop_nil, cstrncmp, INPUT]

lemma ParseLoop_output_op (k : Nat) (c : cmdStruct) :
    ParseLoop (k + 1) [OUTPUT] false false c = { c with isRedirectOutput := true } := by
  simp [ParseLoop, ParseLoop_nil, cstrncmp, INPUT, OUTPUT]

/-- C10: a line whose final token is a redirection operator with no path
token after it (the earlier tokens being ordinary arguments: none compares
equal to `<` or `>`) parses with the corresponding redirect flag set while
the corresponding path stays NULL, and the child branch of
ExternalCommand then wires that stream to the NULL path it will attempt to
open. -/
theorem ParseCommand_dangling_redirect (ts : List CStr) (ig : Bool)
    (hlen : ts.length < MAX_ARGS)
    (hplain : ∀ t ∈ ts, cstrncmp t INPUT 2 ≠ 0 ∧ cstrncmp t OUTPUT 2 ≠ 0) :
    ((ParseCommand (ts ++ [INPUT]) ig).isRedirectInput = true ∧
     (ParseCommand (ts ++ [INPUT]) ig).input = none ∧
     ChildStdin (ParseCommand (ts ++ [INPUT]) ig) = StreamSrc.file none) ∧
    ((ParseCommand (ts ++ [OUTPUT]) ig).isRedirectOutput = true ∧
     (ParseCommand (ts ++ [OUTPUT]) ig).output = none ∧
     ChildStdout (ParseCommand (ts ++ [OUTPUT]) ig) = StreamSrc.file none) := by
  obtain ⟨k, hk⟩ : ∃ k, MAX_ARGS - ts.length = k + 1 :=
    ⟨MAX_ARGS - ts.length - 1, by omega⟩
  have hcorei : ParseLoop MAX_ARGS (ts ++ [INPUT]) false false emptyCmd =
      { emptyCmd with args := ts, isRedirectInput := true } := by
    rw [ParseLoop_plain_append ts hplain [INPUT] MAX_ARGS emptyCmd (Nat.le_of_lt hlen),
      hk, ParseLoop_input_op]
    simp [emptyCmd]
  have hcoreo : ParseLoop MAX_ARGS (ts ++ [OUTPUT]) false false emptyCmd =
      { emptyCmd with args := ts, isRedirectOutput := true } := by
    rw [ParseLoop_plain_append ts hplain [OUTPUT] MAX_ARGS emptyCmd (Nat.le_of_lt hlen),
      hk, ParseLoop_output_op]
    simp [emptyCmd]
  have hfi := ApplyBackground_fields (ParseLoop MAX_ARGS (ts ++ [INPUT]) false false emptyCmd) ig
  have hfo := ApplyBackground_fields (ParseLoop MAX_ARGS (ts ++ [OUTPUT]) false false emptyCmd) ig
  have h1 : (ParseCommand (ts ++ [INPUT]) ig).isRedirectInput = true := by
    unfold ParseCommand
    rw [hfi.2.2.1, hcorei]
  have h2 : (ParseCommand (ts ++ [INPUT]) ig).input = none := by
    unfold ParseCommand
    rw [hfi.1, hcorei]
    rfl
  have h3 : (ParseCommand (ts ++ [OUTPUT]) ig).isRedirectOutput = true := by
    unfold ParseCommand
    rw [hfo.2.2.2, hcoreo]
  have h4 : (ParseCommand (ts ++ [OUTPUT]) ig).output = none := by
    unfold ParseCommand
    rw [hfo.2.1, hcoreo]
    rfl
  refine ⟨⟨h1, h2, ?_⟩, h3, h4, ?_⟩
  · unfold ChildStdin
    rw [h1, if_pos rfl, h2]
  · unfold ChildStdout
    rw [h3, if_pos rfl, h4]

/-- Witness for C10 at the line `cat <` / `cat >`. -/
theorem ParseCommand_dangling_redirect_witness :
    ((ParseCommand [['c', 'a', 't'], ['<']] false).isRedirectInput = true ∧
     (ParseCommand [['c', 'a', 't'], ['<']] false).input = none ∧
     ChildStdin (ParseCommand [['c', 'a', 't'], ['<']] false) = StreamSrc.file none) ∧
    ((ParseCommand [['c', 'a', 't'], ['>']] false).isRedirectOutput = true ∧
     (ParseCommand [['c', 'a', 't'], ['>']] false).output = none ∧
     ChildStdout (ParseCommand [['c', 'a', 't'], ['>']] false) = StreamSrc.file none) :=
  ParseCommand_dangling_redirect [['c', 'a', 't']] false (by decide) (by decide)

lemma char_ne_nul_toNat {c : Char} {l : CStr} (h : NulFree (c :: l)) : c.toNat ≠ 0 := by
  intro h0
  have : c = Char.ofNat 0 := by
    rw [← Char.ofNat_toNat c, h0]
  exact h c (List.mem_cons_self c l) this

lemma cstrncmp_whole_word : ∀ (w : CStr), NulFree w → ∀ a : CStr, NulFree a →
    (cstrncmp a w (w.length + 1) = 0 ↔ a = w) := by
  intro w
  induction w with
  | nil =>
    intro _ a ha
    cases a with
    | nil => simp [cstrncmp]
    | cons c as =>
      simp only [cstrncmp, List.length_nil]
      constructor
      · intro h
        exact absurd (by exact_mod_cast h) (char_ne_nul_toNat ha)
      · intro h
        exact absurd h (by simp)
  | cons d w ih =>
    intro hw a ha
    cases a with
    | nil =>
      simp only [cstrncmp, List.length_cons]
      constructor
      · intro h
        have hd : d.toNat = 0 := by omega
        exact absurd hd (char_ne_nul_toNat hw)
      · intro h
        exact absurd h (by simp)
    | cons c as =>
      simp only [cstrncmp, List.length_cons]
      by_cases hcd : c = d
      · subst hcd
        rw [if_pos rfl, ih (nulFree_tail hw) as (nulFree_tail ha)]
        simp
      · rw [if_neg hcd]
        constructor
        · intro h
          exact absurd h (char_sub_ne_zero hcd)
        · intro h
          injection h with h1 _
          exact absurd h1 hcd

lemma cstrncmp_comment_iff (a : CStr) :
    cstrncmp a COMMENT COMMENT_LEN = 0 ↔ ∃ rest, a = '#' :: rest := by
  cases a with
  | nil =>
    constructor
    · intro h
      exact absurd h (by decide)
    · rintro ⟨r, hr⟩
      exact List.noConfusion hr
  | cons c as =>
    show cstrncmp (c :: as) ['#'] 1 = 0 ↔ _
    by_cases h : c = '#'
    · subst h
      simp only [cstrncmp, if_pos rfl]
      exact ⟨fun _ => ⟨as, rfl⟩, fun _ => rfl⟩
    · simp only [cstrncmp, if_neg h]
      constructor
      · intro h0
        exact absurd h0 (char_sub_ne_zero h)
      · rintro ⟨r, hr⟩
        injection hr with h1 _
        exact absurd h1 h

/-- C9: RunCommand's dispatch of the first argument is comment-prefixed
but built-in-exact: any first argument starting with `#` is a comment
no-op (`#foo` included), while `cd`, `exit` and `status` dispatch to their
built-ins exactly when the first argument equals that name; `exitnow` and
`statusx` run as external commands. -/
theorem RunCommand_dispatch_exactness (a : CStr) (h : NulFree a) :
    (RunCommandDispatch (some a) = CmdKind.comment ↔ ∃ rest, a = '#' :: rest) ∧
    (RunCommandDispatch (some a) = CmdKind.cd ↔ a = CD_CMD) ∧
    (RunCommandDispatch (some a) = CmdKind.exitCmd ↔ a = EXIT_CMD) ∧
    (RunCommandDispatch (some a) = CmdKind.statusCmd ↔ a = STATUS_CMD) ∧
    RunCommandDispatch (some ['e', 'x', 'i', 't', 'n', 'o', 'w']) = CmdKind.external ∧
    RunCommandDispatch (some ['s', 't', 'a', 't', 'u', 's', 'x']) = CmdKind.external ∧
    RunCommandDispatch (some ['#', 'f', 'o', 'o']) = CmdKind.comment := by
  have hcd : cstrncmp a CD_CMD CD_LEN = 0 ↔ a = CD_CMD :=
    cstrncmp_whole_word CD_CMD (by decide) a h
  have hexit : cstrncmp a EXIT_CMD EXIT_LEN = 0 ↔ a = EXIT_CMD :=
    cstrncmp_whole_word EXIT_CMD (by decide) a h
  have hstatus : cstrncmp a STATUS_CMD STATUS_LEN = 0 ↔ a = STATUS_CMD :=
    cstrncmp_whole_word STATUS_CMD (by decide) a h
  have hcom := cstrncmp_comment_iff a
  refine ⟨?_, ?_, ?_, ?_, by decide, by decide, by decide⟩
  · constructor
    · intro hk
      simp only [RunCommandDispatch] at hk
      split_ifs at hk with h1 h2 h3 h4
      · exact hcom.mp h1
    · intro hex
      have h1 : cstrncmp a COMMENT COMMENT_LEN = 0 := hcom.mpr hex
      simp only [RunCommandDispatch]
      rw [if_pos h1]
  · constructor
    · intro hk
      simp only [RunCommandDispatch] at hk
      split_ifs at hk with h1 h2 h3 h4
      · exact hcd.mp h2
    · intro hex
      subst hex
      decide
  · constructor
    · intro hk
      simp only [RunCommandDispatch] at hk
      split_ifs at hk with h1 h2 h3 h4
      · exact hexit.mp h3
    · intro hex
      subst hex
      decide
  · constructor
    · intro hk
      simp only [RunCommandDispatch] at hk
      split_ifs at hk with h1 h2 h3 h4
      · exact hstatus.mp h4
    · intro hex
      subst hex
      decide

/-- Witness for C9 at `cd` and `#foo`. -/
theorem RunCommand_dispatch_exactness_witness :
    RunCommandDispatch (some ['c', 'd']) = CmdKind.cd ∧
    RunCommandDispatch (some ['#', 'f', 'o', 'o']) = CmdKind.comment :=
  ⟨(RunCommand_dispatch_exactness ['c', 'd'] (by decide)).2.1.mpr rfl,
   (RunCommand_dispatch_exactness ['#', 'f', 'o', 'o'] (by decide)).1.mpr ⟨['f', 'o', 'o'], rfl⟩⟩

end Smallsh
